import Mathlib

/-!
# Verification of the wandbox compiler-catalog cache and target resolution

Shallow embedding of the catalog construction (`cache::load`, `Wandbox::new`),
the query helpers (`get_compilers`, `is_valid_compiler_str`,
`get_compiler_language_str`, `is_valid_language`, `get_default_compiler`) and
the request-builder resolution step (`CompilationBuilder::build`).

The remote HTTP fetch and JSON decoding are external collaborators: the
already-decoded listing (`Vec<Compiler>`) is taken as a parameter.  The Rust
`HashMap<String, Language>` is embedded as an association list with the same
lookup/insert/update semantics (iteration order of the Rust map is
unspecified; the association list fixes one order, which no claim depends on
beyond "first group in iteration order").  A Rust panic (`.expect`) is made
explicit with the `Panics` result type.
-/

set_option linter.unusedVariables false

namespace wandbox

/-- Embedding of `Compiler` (src/lib.rs): immutable description of one
compiler. -/
structure Compiler where
  compiler_option_raw : Bool
  display_compile_command : String
  runtime_option_raw : Bool
  version : String
  language : String
  name : String
deriving DecidableEq, Repr

/-- Embedding of `Language` (src/lib.rs): a language name plus its ordered
compilers. -/
structure Language where
  name : String
  compilers : List Compiler
deriving DecidableEq, Repr

/-- Rust `str::to_ascii_lowercase`: lowercase every ASCII letter, leave the
rest alone.  `Char.toLower` is exactly the per-character ASCII lowering. -/
def toAsciiLower (s : String) : String :=
  ⟨s.data.map Char.toLower⟩

/-- Embedding of `type CompilerCache = HashMap<String, Language>` as an
association list. -/
abbrev CompilerCache := List (String × Language)

/-- `HashMap::get`: the value at the first entry whose key matches. -/
def cacheGet : CompilerCache → String → Option Language
  | [], _ => none
  | (k', v) :: rest, k => if k' = k then some v else cacheGet rest k

/-- `HashMap::get_mut` followed by an in-place modification of the entry. -/
def cacheUpdate : CompilerCache → String → (Language → Language) → CompilerCache
  | [], _, _ => []
  | (k', v) :: rest, k, f =>
      if k' = k then (k', f v) :: rest else (k', v) :: cacheUpdate rest k f

/-- One iteration of the grouping loop in `cache::load` (src/cache/mod.rs):
lowercase the entry's declared language, then either push onto the existing
group or insert a new group seeded with this record. -/
def loadStep (m : CompilerCache) (c : Compiler) : CompilerCache :=
  let language_name := toAsciiLower c.language
  match cacheGet m language_name with
  | some _ =>
      cacheUpdate m language_name (fun p => { p with compilers := p.compilers ++ [c] })
  | none =>
      m ++ [(language_name, { name := language_name, compilers := [c] })]

/-- Embedding of `cache::load` (src/cache/mod.rs), after the external fetch
and JSON decode produced `listing`. -/
def load (listing : List Compiler) : CompilerCache :=
  listing.foldl loadStep []

/-- Embedding of `Language::remove_compiler` (src/lib.rs): keep only the
compilers whose `name` differs from `str`. -/
def Language.remove_compiler (l : Language) (s : String) : Language :=
  { l with compilers := l.compilers.filter (fun v => !(v.name == s)) }

/-- Embedding of the `Wandbox` handle; the `Arc<RwLock<_>>` wrapper is a
read-sharing device with no write after construction, so the state is just
the cache value. -/
structure Wandbox where
  cache : CompilerCache
deriving DecidableEq, Repr

/-- The language-exclusion statement of `Wandbox::new`:
`if let Some(langs) = langs { cache = cache.into_iter().filter(|(_x, v)| !langs.contains(&v.name)).collect(); }` -/
def filterLangs (langs : Option (List String)) (m : CompilerCache) : CompilerCache :=
  match langs with
  | some ls => m.filter (fun kv => !(ls.contains kv.2.name))
  | none => m

/-- The compiler-exclusion statement of `Wandbox::new`: for each group, call
`remove_compiler` once per excluded identifier. -/
def filterComps (comps : Option (List String)) (m : CompilerCache) : CompilerCache :=
  match comps with
  | some cs => m.map (fun kv => (kv.1, cs.foldl Language.remove_compiler kv.2))
  | none => m

/-- The final loop of `Wandbox::new`: re-lowercase every retained record's
`language` field. -/
def lowerLanguages (m : CompilerCache) : CompilerCache :=
  m.map (fun kv =>
    (kv.1, { kv.2 with
             compilers := kv.2.compilers.map (fun c =>
               { c with language := toAsciiLower c.language }) }))

/-- Embedding of `Wandbox::new` (src/lib.rs): load, drop excluded language
groups, remove excluded compilers from every remaining group, then
re-lowercase every retained record's `language` field.  The three stages are
the three statements of the Rust function, in order. -/
def Wandbox.new (listing : List Compiler) (comps : Option (List String))
    (langs : Option (List String)) : Wandbox :=
  ⟨lowerLanguages (filterComps comps (filterLangs langs (load listing)))⟩

/-- Embedding of `Wandbox::get_compilers`. -/
def Wandbox.get_compilers (wb : Wandbox) (lang : String) : Option (List Compiler) :=
  match cacheGet wb.cache lang with
  | some l => some l.compilers
  | none => none

/-- Embedding of `Wandbox::get_languages`. -/
def Wandbox.get_languages (wb : Wandbox) : List Language :=
  wb.cache.map (fun kv => kv.2)

/-- Embedding of `Wandbox::is_valid_compiler_str`: scan every group for a
compiler with exactly this name. -/
def Wandbox.is_valid_compiler_str (wb : Wandbox) (c : String) : Bool :=
  wb.cache.any (fun kv => kv.2.compilers.any (fun v => v.name == c))

/-- The scan of `Wandbox::get_compiler_language_str`: first group in
iteration order holding a compiler with this name. -/
def gclsScan : CompilerCache → String → Option String
  | [], _ => none
  | (_k, v) :: rest, c =>
      if v.compilers.any (fun comp => comp.name == c) then some v.name
      else gclsScan rest c

/-- Embedding of `Wandbox::get_compiler_language_str`. -/
def Wandbox.get_compiler_language_str (wb : Wandbox) (c : String) : Option String :=
  gclsScan wb.cache c

/-- Embedding of `Wandbox::is_valid_language`: key lookup. -/
def Wandbox.is_valid_language (wb : Wandbox) (l : String) : Bool :=
  (cacheGet wb.cache l).isSome

/-- Result of a Rust computation that may panic. -/
inductive Panics (α : Type) where
  | panicked : Panics α
  | ok : α → Panics α
deriving DecidableEq, Repr

/-- Embedding of `Wandbox::get_default_compiler`: `None` for an absent key;
for a present key, `compilers.get(0).expect("awd")` panics when the group is
empty and otherwise yields the first compiler's name. -/
def Wandbox.get_default_compiler (wb : Wandbox) (l : String) : Panics (Option String) :=
  match cacheGet wb.cache l with
  | some lang =>
      match lang.compilers.get? 0 with
      | some c => Panics.ok (some c.name)
      | none => Panics.panicked
  | none => Panics.ok none

/-- Embedding of `CompilationBuilder` (src/lib.rs). -/
structure CompilationBuilder where
  target : String
  lang : String
  compiler : String
  code : String
  stdin : String
  options : List String
  compiler_options_raw : String
  save : Bool
deriving DecidableEq, Repr

/-- `CompilationBuilder::new`: all fields default (empty strings, empty
options, save = false). -/
def CompilationBuilder.new : CompilationBuilder :=
  { target := "", lang := "", compiler := "", code := "", stdin := ""
    options := [], compiler_options_raw := "", save := false }

/-- Outcome of `CompilationBuilder::build` on a `&mut self`: a panic
(propagated from `get_default_compiler`), or the mutated builder together
with `Ok(())` or `Err(WandboxError)` (carrying the message). -/
inductive BuildResult where
  | panicked : BuildResult
  | ok : CompilationBuilder → BuildResult
  | err : String → CompilationBuilder → BuildResult
deriving DecidableEq, Repr

/-- `true` exactly on the `ok` outcome of `build`. -/
def BuildResult.is_resolved : BuildResult → Bool
  | BuildResult.ok _ => true
  | _ => false

/-- Embedding of `CompilationBuilder::build` (src/lib.rs): join the options,
then resolve the target — language-name match first, compiler-name match
second, else error. -/
def CompilationBuilder.build (b : CompilationBuilder) (wb : Wandbox) : BuildResult :=
  let b0 := { b with compiler_options_raw := String.intercalate "\n" b.options }
  if wb.is_valid_language b0.target then
    match wb.get_default_compiler b0.target with
    | Panics.panicked => BuildResult.panicked
    | Panics.ok none =>
        BuildResult.err "Unable to determine default compiler for input language" b0
    | Panics.ok (some comp) =>
        BuildResult.ok { b0 with compiler := comp, lang := b0.target }
  else if wb.is_valid_compiler_str b0.target then
    match wb.get_compiler_language_str b0.target with
    | none => BuildResult.err "Unable to determine language for compiler\x7d" b0
    | some lang => BuildResult.ok { b0 with lang := lang, compiler := b0.target }
  else
    BuildResult.err "Unable to find compiler or language for target" b0

/-! ## Helper lemmas -/

theorem char_toNat_ofNat_of_valid (n : Nat) (h : n.isValidChar) :
    (Char.ofNat n).toNat = n := by
  rw [Char.ofNat, dif_pos h]
  rfl

theorem char_toLower_idem (c : Char) : c.toLower.toLower = c.toLower := by
  by_cases h : c.toNat ≥ 65 ∧ c.toNat ≤ 90
  · have hv : Nat.isValidChar (c.toNat + 32) := Or.inl (by omega)
    have h1 : c.toLower = Char.ofNat (c.toNat + 32) := by
      unfold Char.toLower
      rw [if_pos h]

    have h2 : c.toLower.toNat = c.toNat + 32 := by
      rw [h1, char_toNat_ofNat_of_valid _ hv]
    conv_lhs => rw [Char.toLower]
    rw [if_neg]
    rw [h2]
    omega
  · have h1 : c.toLower = c := by
      unfold Char.toLower
      rw [if_neg h]
    rw [h1, h1]

theorem toAsciiLower_idem (s : String) :
    toAsciiLower (toAsciiLower s) = toAsciiLower s := by
  unfold toAsciiLower
  refine congrArg String.mk ?_
  show (s.data.map Char.toLower).map Char.toLower = s.data.map Char.toLower
  rw [List.map_map]
  exact List.map_congr_left fun a _ => char_toLower_idem a

theorem cacheGet_append_single_ne (m : CompilerCache) (ln k : String)
    (g : Language) (h : ln ≠ k) :
    cacheGet (m ++ [(ln, g)]) k = cacheGet m k := by
  induction m with
  | nil => simp [cacheGet, h]
  | cons hd tl ih =>
      obtain ⟨k', v⟩ := hd
      by_cases hk : k' = k <;> simp [cacheGet, hk, ih]

theorem cacheGet_append_single_of_none (m : CompilerCache) (ln k : String)
    (g : Language) (h : cacheGet m k = none) :
    cacheGet (m ++ [(ln, g)]) k = if ln = k then some g else none := by
  induction m with
  | nil => simp [cacheGet]
  | cons hd tl ih =>
      obtain ⟨k', v⟩ := hd
      by_cases hk : k' = k
      · simp [cacheGet, hk] at h
      · simp [cacheGet, hk] at h ⊢
        exact ih h

theorem cacheGet_update_self (m : CompilerCache) (k : String)
    (f : Language → Language) :
    cacheGet (cacheUpdate m k f) k = (cacheGet m k).map f := by
  induction m with
  | nil => simp [cacheGet, cacheUpdate]
  | cons hd tl ih =>
      obtain ⟨k', v⟩ := hd
      by_cases hk : k' = k <;> simp [cacheGet, cacheUpdate, hk, ih]

theorem cacheGet_update_ne (m : CompilerCache) (k k' : String)
    (f : Language → Language) (h : k ≠ k') :
    cacheGet (cacheUpdate m k f) k' = cacheGet m k' := by
  induction m with
  | nil => simp [cacheGet, cacheUpdate]
  | cons hd tl ih =>
      obtain ⟨k0, v⟩ := hd
      by_cases hk0 : k0 = k
      · subst hk0
        simp [cacheGet, cacheUpdate, h, if_neg (fun hh => h hh)]
      · by_cases hk1 : k0 = k' <;>
          simp [cacheGet, cacheUpdate, hk0, hk1, ih, Ne.symm h]

theorem load_concat (l : List Compiler) (c : Compiler) :
    load (l ++ [c]) = loadStep (load l) c := by
  simp [load, List.foldl_append]

/-- C7: catalog construction groups listing entries by the lowercase form of
their declared language name: the group stored at key `k` (when it exists)
holds exactly the listing entries whose lowercased language is `k`, in
listing order — so the first-encountered compiler is at index 0 — and a key
exists exactly when some entry produced it.  Each entry is appended to the
existing group for its lowercased name or seeds a new group. -/
theorem load_groups_by_lowercase_language (listing : List Compiler) (k : String) :
    cacheGet (load listing) k =
      (if listing.filter (fun x => toAsciiLower x.language == k) = [] then none
       else some { name := k,
                   compilers := listing.filter (fun x => toAsciiLower x.language == k) }) := by
  induction listing using List.reverseRecOn with
  | nil => simp [load, cacheGet]
  | append_singleton l c ih =>
    rw [load_concat]
    by_cases hk : toAsciiLower c.language = k
    · have hf : (l ++ [c]).filter (fun x => toAsciiLower x.language == k)
            = l.filter (fun x => toAsciiLower x.language == k) ++ [c] := by
        simp [List.filter_append, hk]
      cases hcase : cacheGet (load l) (toAsciiLower c.language) with
      | none =>
        have hemp : l.filter (fun x => toAsciiLower x.language == k) = [] := by
          by_contra hne
          rw [hk, ih, if_neg hne] at hcase
          simp at hcase
        have hnone : cacheGet (load l) k = none := by
          rw [ih, if_pos hemp]
        simp only [loadStep, hcase]
        rw [cacheGet_append_single_of_none _ _ _ _ hnone, if_pos hk, hf, hemp]
        simp [hk]
      | some g =>
        have hne : l.filter (fun x => toAsciiLower x.language == k) ≠ [] := by
          intro h0
          rw [hk, ih, if_pos h0] at hcase
          simp at hcase
        have hsome : cacheGet (load l) k
            = some { name := k,
                     compilers := l.filter (fun x => toAsciiLower x.language == k) } := by
          rw [ih, if_neg hne]
        simp only [loadStep, hcase]
        rw [hk, cacheGet_update_self, hsome, hf, if_neg (by simp)]
        simp
    · have hf : (l ++ [c]).filter (fun x => toAsciiLower x.language == k)
            = l.filter (fun x => toAsciiLower x.language == k) := by
        simp [List.filter_append, hk]
      cases hcase : cacheGet (load l) (toAsciiLower c.language) with
      | none =>
        simp only [loadStep, hcase]
        rw [cacheGet_append_single_ne _ _ _ _ hk, hf, ih]
      | some g =>
        simp only [loadStep, hcase]
        rw [cacheGet_update_ne _ _ _ _ hk, hf, ih]

theorem mem_cacheUpdate (m : CompilerCache) (k : String) (f : Language → Language)
    (kv : String × Language) (h : kv ∈ cacheUpdate m k f) :
    kv ∈ m ∨ ∃ v, (k, v) ∈ m ∧ kv = (k, f v) := by
  induction m with
  | nil => simp [cacheUpdate] at h
  | cons hd tl ih =>
      obtain ⟨k0, v0⟩ := hd
      by_cases hk : k0 = k
      · subst hk
        simp only [cacheUpdate, if_pos rfl] at h
        rcases List.mem_cons.mp h with h | h
        · exact Or.inr ⟨v0, List.mem_cons_self _ _, h⟩
        · exact Or.inl (List.mem_cons_of_mem _ h)
      · simp only [cacheUpdate, if_neg hk] at h
        rcases List.mem_cons.mp h with h | h
        · exact Or.inl (by simp [h])
        · rcases ih h with h' | ⟨v, hv, hkv⟩
          · exact Or.inl (List.mem_cons_of_mem _ h')
          · exact Or.inr ⟨v, List.mem_cons_of_mem _ hv, hkv⟩

/-- The invariant each catalog entry satisfies after `cache::load`: the key
equals the group's name, the key is already ASCII-lowercase, and every
member's declared language lowercases to the key. -/
def entryInv (kv : String × Language) : Prop :=
  kv.1 = kv.2.name ∧ toAsciiLower kv.1 = kv.1 ∧
    ∀ c ∈ kv.2.compilers, toAsciiLower c.language = kv.1

theorem loadStep_entryInv (m : CompilerCache) (c : Compiler)
    (h : ∀ kv ∈ m, entryInv kv) : ∀ kv ∈ loadStep m c, entryInv kv := by
  intro kv hkv
  cases hcase : cacheGet m (toAsciiLower c.language) with
  | some g =>
      simp only [loadStep, hcase] at hkv
      rcases mem_cacheUpdate _ _ _ _ hkv with hm | ⟨v, hv, hkveq⟩
      · exact h kv hm
      · subst hkveq
        obtain ⟨h1, h2, h3⟩ := h _ hv
        refine ⟨h1, h2, ?_⟩
        intro x hx
        rcases List.mem_append.mp hx with hx | hx
        · exact h3 x hx
        · simp at hx
          subst hx
          rfl
  | none =>
      simp only [loadStep, hcase] at hkv
      rcases List.mem_append.mp hkv with hm | hnew
      · exact h kv hm
      · simp at hnew
        subst hnew
        refine ⟨rfl, toAsciiLower_idem _, ?_⟩
        intro x hx
        simp at hx
        subst hx
        rfl

theorem load_entryInv (listing : List Compiler) :
    ∀ kv ∈ load listing, entryInv kv := by
  suffices h : ∀ m, (∀ kv ∈ m, entryInv kv) →
      ∀ kv ∈ listing.foldl loadStep m, entryInv kv by
    exact h [] (by simp)
  induction listing with
  | nil => intro m hm; simpa using hm
  | cons c rest ih =>
      intro m hm
      simp only [List.foldl]
      exact ih _ (loadStep_entryInv m c hm)

theorem cacheGet_lowerLanguages (m : CompilerCache) (k : String) :
    cacheGet (lowerLanguages m) k =
      (cacheGet m k).map (fun v =>
        { v with compilers := v.compilers.map (fun c =>
            { c with language := toAsciiLower c.language }) }) := by
  induction m with
  | nil => simp [lowerLanguages, cacheGet]
  | cons hd tl ih =>
      obtain ⟨k0, v0⟩ := hd
      by_cases hk : k0 = k
      · simp [lowerLanguages, cacheGet, hk]
      · simp only [lowerLanguages, List.map_cons, cacheGet, if_neg hk]
        simpa [lowerLanguages] using ih

theorem cacheGet_filterComps_some (cs : List String) (m : CompilerCache) (k : String) :
    cacheGet (filterComps (some cs) m) k =
      (cacheGet m k).map (fun v => cs.foldl Language.remove_compiler v) := by
  induction m with
  | nil => simp [filterComps, cacheGet]
  | cons hd tl ih =>
      obtain ⟨k0, v0⟩ := hd
      by_cases hk : k0 = k
      · simp [filterComps, cacheGet, hk]
      · simp only [filterComps, List.map_cons, cacheGet, if_neg hk]
        simpa [filterComps] using ih

theorem cacheGet_filter_of_dropped (p : String × Language → Bool)
    (m : CompilerCache) (k : String)
    (h : ∀ kv ∈ m, kv.1 = k → p kv = false) :
    cacheGet (m.filter p) k = none := by
  induction m with
  | nil => simp [cacheGet]
  | cons hd tl ih =>
      obtain ⟨k0, v0⟩ := hd
      have ih' := ih (fun kv hkv => h kv (List.mem_cons_of_mem _ hkv))
      by_cases hk : k0 = k
      · have hp : p (k0, v0) = false := h (k0, v0) (List.mem_cons_self _ _) hk
        simp [List.filter_cons, hp, ih']
      · by_cases hp : p (k0, v0) <;> simp [List.filter_cons, hp, cacheGet, hk, ih']

theorem cacheGet_filter_of_kept (p : String × Language → Bool)
    (m : CompilerCache) (k : String)
    (h : ∀ kv ∈ m, kv.1 = k → p kv = true) :
    cacheGet (m.filter p) k = cacheGet m k := by
  induction m with
  | nil => simp
  | cons hd tl ih =>
      obtain ⟨k0, v0⟩ := hd
      have ih' := ih (fun kv hkv => h kv (List.mem_cons_of_mem _ hkv))
      by_cases hk : k0 = k
      · subst hk
        have hp : p (k0, v0) = true := h (k0, v0) (List.mem_cons_self _ _) rfl
        simp [List.filter_cons, hp, cacheGet]
      · by_cases hp : p (k0, v0) <;> simp [List.filter_cons, hp, cacheGet, hk, ih']

theorem foldl_remove_name (cs : List String) (l : Language) :
    (cs.foldl Language.remove_compiler l).name = l.name := by
  induction cs generalizing l with
  | nil => rfl
  | cons s rest ih =>
      simp only [List.foldl]
      rw [ih]
      rfl

theorem mem_foldl_remove (cs : List String) :
    ∀ (l : Language) (v : Compiler),
      v ∈ (cs.foldl Language.remove_compiler l).compilers → v ∈ l.compilers := by
  induction cs with
  | nil =>
      intro l v h
      simpa using h
  | cons a rest ih =>
      intro l v h
      simp only [List.foldl] at h
      have h' := ih _ v h
      simp only [Language.remove_compiler, List.mem_filter] at h'
      exact h'.1

theorem name_ne_of_mem_foldl_remove (cs : List String) :
    ∀ s : String, s ∈ cs → ∀ (l : Language) (v : Compiler),
      v ∈ (cs.foldl Language.remove_compiler l).compilers → v.name ≠ s := by
  induction cs with
  | nil =>
      intro s hs
      cases hs
  | cons a rest ih =>
      intro s hs l v h
      simp only [List.foldl] at h
      rcases List.mem_cons.mp hs with heq | hs'
      · subst heq
        have h' := mem_foldl_remove rest _ v h
        simp only [Language.remove_compiler, List.mem_filter, Bool.not_eq_eq_eq_not,
          Bool.not_true, beq_eq_false_iff_ne, ne_eq] at h'
        exact h'.2
      · exact ih s hs' _ v h

theorem gclsScan_eq_none (m : CompilerCache) (c : String)
    (h : ∀ kv ∈ m, ∀ v ∈ kv.2.compilers, v.name ≠ c) :
    gclsScan m c = none := by
  induction m with
  | nil => rfl
  | cons hd tl ih =>
      obtain ⟨k0, v0⟩ := hd
      have hany : v0.compilers.any (fun comp => comp.name == c) = false := by
        rw [List.any_eq_false]
        intro x hx
        simpa using h (k0, v0) (List.mem_cons_self _ _) x hx
      simp only [gclsScan, hany]
      simp only [Bool.false_eq_true, if_false]
      exact ih (fun kv hkv => h kv (List.mem_cons_of_mem _ hkv))

/-- After `Wandbox::new` with excluded-compiler set `cs`, no retained group
holds a compiler whose name is in `cs`. -/
theorem new_no_excluded_compiler (listing : List Compiler) (cs : List String)
    (langs : Option (List String)) (c : String) (hc : c ∈ cs) :
    ∀ kv ∈ (Wandbox.new listing (some cs) langs).cache,
      ∀ v ∈ kv.2.compilers, v.name ≠ c := by
  intro kv hkv v hv
  simp only [Wandbox.new, lowerLanguages, List.mem_map] at hkv
  obtain ⟨p, hp, rfl⟩ := hkv
  simp only [List.mem_map] at hv
  obtain ⟨c', hc', rfl⟩ := hv
  simp only [filterComps, List.mem_map] at hp
  obtain ⟨q, hq, rfl⟩ := hp
  exact name_ne_of_mem_foldl_remove cs c hc q.2 c' hc'

/-- C5: a compiler identifier `c` contained in the excluded-compilers set
passed to `Wandbox::new` is unknown in the resulting catalog:
`is_valid_compiler_str c` is false and `get_compiler_language_str c` is
`None`. -/
theorem excluded_compiler_is_unknown (listing : List Compiler) (cs : List String)
    (langs : Option (List String)) (c : String) (hc : c ∈ cs) :
    (Wandbox.new listing (some cs) langs).is_valid_compiler_str c = false ∧
    (Wandbox.new listing (some cs) langs).get_compiler_language_str c = none := by
  have hno := new_no_excluded_compiler listing cs langs c hc
  constructor
  · simp only [Wandbox.is_valid_compiler_str]
    rw [List.any_eq_false]
    intro kv hkv
    rw [Bool.not_eq_true, List.any_eq_false]
    intro v hv
    simpa using hno kv hkv v hv
  · exact gclsScan_eq_none _ _ hno

/-- A concrete listing entry (mixed-case language) used to instantiate the
universally quantified theorems on concrete inputs. -/
def gccHead : Compiler :=
  { compiler_option_raw := false, display_compile_command := "g++",
    runtime_option_raw := false, version := "head", language := "C++",
    name := "gcc-head" }

/-- Instantiation of C5's theorem: excluding `gcc-head` at construction makes
it unknown to both compiler queries. -/
theorem excluded_compiler_is_unknown_witness :
    (Wandbox.new [gccHead] (some ["gcc-head"]) none).is_valid_compiler_str "gcc-head" = false ∧
    (Wandbox.new [gccHead] (some ["gcc-head"]) none).get_compiler_language_str "gcc-head" = none :=
  excluded_compiler_is_unknown _ _ _ _ (by decide)

theorem mem_filterLangs (langs : Option (List String)) (m : CompilerCache)
    (kv : String × Language) (h : kv ∈ filterLangs langs m) : kv ∈ m := by
  cases langs with
  | none => simpa [filterLangs] using h
  | some ls =>
      simp only [filterLangs] at h
      exact (List.mem_filter.mp h).1

/-- After `Wandbox::new` with excluded-language set `ls`, a member of `ls` is
not a key of the cache. -/
theorem new_excluded_language_cacheGet_none (listing : List Compiler)
    (comps : Option (List String)) (ls : List String) (x : String) (hx : x ∈ ls) :
    cacheGet (Wandbox.new listing comps (some ls)).cache x = none := by
  have h1 : cacheGet (filterLangs (some ls) (load listing)) x = none := by
    simp only [filterLangs]
    apply cacheGet_filter_of_dropped
    intro kv hkv hkey
    have hinv := load_entryInv listing kv hkv
    have hn : kv.2.name = x := by rw [← hinv.1, hkey]
    simp [hn, List.contains, hx]
  have h2 : cacheGet (filterComps comps (filterLangs (some ls) (load listing))) x
      = none := by
    cases comps with
    | none => simpa [filterComps] using h1
    | some cs =>
        rw [cacheGet_filterComps_some, h1]
        rfl
  show cacheGet (lowerLanguages _) x = none
  rw [cacheGet_lowerLanguages, h2]
  rfl

/-- C6: a language identifier `x` contained in the excluded-languages set
passed to `Wandbox::new` is unknown in the resulting catalog:
`is_valid_language x` is false and `get_compilers x` is `None`.
(A lowercase member of `ls` has its group dropped; a mixed-case member never
matches the already-lowercased keys in the first place.) -/
theorem excluded_language_is_unknown (listing : List Compiler)
    (comps : Option (List String)) (ls : List String) (x : String) (hx : x ∈ ls) :
    (Wandbox.new listing comps (some ls)).is_valid_language x = false ∧
    (Wandbox.new listing comps (some ls)).get_compilers x = none := by
  have h := new_excluded_language_cacheGet_none listing comps ls x hx
  constructor
  · simp [Wandbox.is_valid_language, h]
  · simp [Wandbox.get_compilers, h]

/-- Instantiation of C6's theorem: excluding `c++` drops the group. -/
theorem excluded_language_is_unknown_witness :
    (Wandbox.new [gccHead] none (some ["c++"])).is_valid_language "c++" = false ∧
    (Wandbox.new [gccHead] none (some ["c++"])).get_compilers "c++" = none :=
  excluded_language_is_unknown _ _ _ _ (by decide)

/-- C10: exclusion of languages is matched case-sensitively against the
already-lowercased group names.  If the listing holds an entry whose language
lowercases to `x`, and the excluded set holds a variant `y` of `x` that
differs only in letter case (`toAsciiLower y = x`, `y ≠ x`) while `x` itself
is not in the set, then `Wandbox::new` retains the group and
`is_valid_language x` stays true. -/
theorem excluded_language_case_sensitive (listing : List Compiler)
    (comps : Option (List String)) (ls : List String) (x y : String) (e : Compiler)
    (he : e ∈ listing) (hex : toAsciiLower e.language = x)
    (hy : y ∈ ls) (hyx : toAsciiLower y = x) (hne : y ≠ x) (hnx : x ∉ ls) :
    (Wandbox.new listing comps (some ls)).is_valid_language x = true := by
  have hload : ∃ g, cacheGet (load listing) x = some g := by
    rw [load_groups_by_lowercase_language, if_neg]
    · exact ⟨_, rfl⟩
    · intro h0
      have hmem : e ∈ listing.filter (fun z => toAsciiLower z.language == x) :=
        List.mem_filter.mpr ⟨he, by simp [hex]⟩
      rw [h0] at hmem
      cases hmem
  obtain ⟨g, hg⟩ := hload
  have h1 : cacheGet (filterLangs (some ls) (load listing)) x = some g := by
    simp only [filterLangs]
    rw [cacheGet_filter_of_kept]
    · exact hg
    · intro kv hkv hkey
      have hinv := load_entryInv listing kv hkv
      have hn : kv.2.name = x := by rw [← hinv.1, hkey]
      simp [hn, List.contains, hnx]
  have h2 : (cacheGet (filterComps comps (filterLangs (some ls) (load listing))) x).isSome := by
    cases comps with
    | none => simp [filterComps, h1]
    | some cs =>
        rw [cacheGet_filterComps_some, h1]
        rfl
  show (cacheGet (lowerLanguages _) x).isSome = true
  rw [cacheGet_lowerLanguages]
  simpa using h2

/-- Instantiation of C10's theorem: excluding `C++` (mixed case) does not
drop the `c++` group. -/
theorem excluded_language_case_sensitive_witness :
    (Wandbox.new [gccHead] none (some ["C++"])).is_valid_language "c++" = true :=
  excluded_language_case_sensitive [gccHead] none ["C++"] "c++" "C++" gccHead
    (by decide) (by decide) (by decide) (by decide) (by decide) (by decide)

/-- C8: in every catalog returned by `Wandbox::new`, every key is an
already-lowercase language name, every group's `name` equals its key, and
every Compiler record's `language` field equals its group's key (so an entry
with language `"C++"` yields key `"c++"` and a record with language
`"c++"`).  Queries are pure reads over this value (they never return a
modified catalog), so the invariant is trivially preserved by them. -/
theorem catalog_entry_invariant (listing : List Compiler)
    (comps langs : Option (List String)) :
    ∀ kv ∈ (Wandbox.new listing comps langs).cache,
      toAsciiLower kv.1 = kv.1 ∧ kv.2.name = kv.1 ∧
        ∀ c ∈ kv.2.compilers, c.language = kv.1 := by
  intro kv hkv
  simp only [Wandbox.new, lowerLanguages, List.mem_map] at hkv
  obtain ⟨p, hp, rfl⟩ := hkv
  have hq : ∃ q ∈ filterLangs langs (load listing),
      p.1 = q.1 ∧ p.2.name = q.2.name ∧ ∀ c ∈ p.2.compilers, c ∈ q.2.compilers := by
    cases comps with
    | none => exact ⟨p, by simpa [filterComps] using hp, rfl, rfl, fun c hc => hc⟩
    | some cs =>
        simp only [filterComps, List.mem_map] at hp
        obtain ⟨q, hq, rfl⟩ := hp
        exact ⟨q, hq, rfl, foldl_remove_name cs q.2, fun c hc => mem_foldl_remove cs q.2 c hc⟩
  obtain ⟨q, hq, hkey, hname, hsub⟩ := hq
  obtain ⟨h1, h2, h3⟩ := load_entryInv listing q (mem_filterLangs langs _ q hq)
  refine ⟨?_, ?_, ?_⟩
  · show toAsciiLower p.1 = p.1
    rw [hkey]
    exact h2
  · show p.2.name = p.1
    rw [hname, ← h1, hkey]
  · intro c hc
    simp only [List.mem_map] at hc
    obtain ⟨c', hc', rfl⟩ := hc
    show toAsciiLower c'.language = p.1
    rw [hkey]
    exact h3 c' (hsub c' hc')

/-- Instantiation of C8's theorem on the single-entry mixed-case listing:
the produced entry is keyed `"c++"`, its group is named `"c++"`, and the
retained record's `language` field reads `"c++"`. -/
theorem catalog_entry_invariant_witness :
    toAsciiLower "c++" = "c++" ∧
    ({ name := "c++", compilers := [{ gccHead with language := "c++" }] } : Language).name = "c++" ∧
    ({ gccHead with language := "c++" } : Compiler).language = "c++" := by
  have h := catalog_entry_invariant [gccHead] none none
    ("c++", { name := "c++", compilers := [{ gccHead with language := "c++" }] })
    (by decide)
  exact ⟨h.1, h.2.1, h.2.2 { gccHead with language := "c++" } (by decide)⟩

/-- C1: `get_default_compiler` treats an empty group as a hard internal
invariant violation: for a key `l` present in the mapping with zero
compilers it panics (the `.expect` call), while for a key `l'` absent from
the mapping it returns a normal `None`. -/
theorem get_default_compiler_empty_panics_absent_none (wb : Wandbox)
    (l l' : String) (g : Language)
    (hg : cacheGet wb.cache l = some g) (he : g.compilers = [])
    (ha : cacheGet wb.cache l' = none) :
    wb.get_default_compiler l = Panics.panicked ∧
    wb.get_default_compiler l' = Panics.ok none := by
  constructor
  · simp [Wandbox.get_default_compiler, hg, he]
  · simp [Wandbox.get_default_compiler, ha]

/-- Instantiation of C1's theorem: a catalog whose `c++` group lost its only
compiler to filtering panics on the default-compiler lookup, and an unknown
language yields `None`. -/
theorem get_default_compiler_empty_panics_absent_none_witness :
    (Wandbox.new [gccHead] (some ["gcc-head"]) none).get_default_compiler "c++"
      = Panics.panicked ∧
    (Wandbox.new [gccHead] (some ["gcc-head"]) none).get_default_compiler "rust"
      = Panics.ok none :=
  get_default_compiler_empty_panics_absent_none _ "c++" "rust"
    { name := "c++", compilers := [] } (by decide) rfl (by decide)

/-- C9: for a key `L` of a freshly built catalog whose group holds at least
one compiler (named by its first element `c`), `get_default_compiler L`
returns `Some c.name`, and `c` is a member of the sequence returned by
`get_compilers L` (its first element). -/
theorem default_compiler_is_first_of_group (listing : List Compiler)
    (comps langs : Option (List String)) (L : String) (g : Language) (c : Compiler)
    (hg : cacheGet (Wandbox.new listing comps langs).cache L = some g)
    (hc0 : g.compilers.get? 0 = some c) :
    (Wandbox.new listing comps langs).get_default_compiler L = Panics.ok (some c.name) ∧
    (Wandbox.new listing comps langs).get_compilers L = some g.compilers ∧
    c ∈ g.compilers := by
  refine ⟨?_, ?_, ?_⟩
  · rw [List.get?_eq_getElem?] at hc0
    simp [Wandbox.get_default_compiler, hg, hc0]
  · simp [Wandbox.get_compilers, hg]
  · exact List.get?_mem hc0

/-- Instantiation of C9's theorem on a freshly built one-entry catalog. -/
theorem default_compiler_is_first_of_group_witness :
    (Wandbox.new [gccHead] none none).get_default_compiler "c++"
      = Panics.ok (some ({ gccHead with language := "c++" } : Compiler).name) ∧
    (Wandbox.new [gccHead] none none).get_compilers "c++"
      = some ({ name := "c++", compilers := [{ gccHead with language := "c++" }] } : Language).compilers ∧
    ({ gccHead with language := "c++" } : Compiler)
      ∈ ({ name := "c++", compilers := [{ gccHead with language := "c++" }] } : Language).compilers :=
  default_compiler_is_first_of_group [gccHead] none none "c++"
    { name := "c++", compilers := [{ gccHead with language := "c++" }] }
    { gccHead with language := "c++" } (by decide) rfl

/-- `true` exactly on the `err` outcome of `build`. -/
def BuildResult.is_err : BuildResult → Bool
  | BuildResult.err _ _ => true
  | _ => false

/-- The error message carried by an `err` outcome. -/
def BuildResult.err_msg : BuildResult → Option String
  | BuildResult.err e _ => some e
  | _ => none

/-- The builder state after a completed (non-panicking) `build` call. -/
def BuildResult.state : BuildResult → Option CompilationBuilder
  | BuildResult.ok b => some b
  | BuildResult.err _ b => some b
  | BuildResult.panicked => none

/-- Behaviour of `build` when the target is a key of the catalog: the
language branch runs; with a first compiler it resolves, with an empty group
it panics. -/
theorem build_language_branch (wb : Wandbox) (b : CompilationBuilder)
    (g : Language) (hg : cacheGet wb.cache b.target = some g) :
    (∀ c, g.compilers.get? 0 = some c →
        (b.build wb).is_resolved = true ∧
        (b.build wb).state.map CompilationBuilder.lang = some b.target ∧
        (b.build wb).state.map CompilationBuilder.compiler = some c.name) ∧
    (g.compilers = [] → b.build wb = BuildResult.panicked) := by
  have hv : wb.is_valid_language b.target = true := by
    simp [Wandbox.is_valid_language, hg]
  constructor
  · intro c hc0
    rw [List.get?_eq_getElem?] at hc0
    have hd : wb.get_default_compiler b.target = Panics.ok (some c.name) := by
      simp [Wandbox.get_default_compiler, hg, hc0]
    simp [CompilationBuilder.build, hv, hd, BuildResult.is_resolved, BuildResult.state]
  · intro he
    have hd : wb.get_default_compiler b.target = Panics.panicked := by
      simp [Wandbox.get_default_compiler, hg, he]
    simp [CompilationBuilder.build, hv, hd]

/-- C2 (amended): when the builder's target is a known language name, `build`
resolves `compiler` to that language's default compiler and `lang` to the
target whenever the group holds a first compiler; when the group holds zero
compilers, `build` panics (propagating the `get_default_compiler` invariant
violation) rather than returning a `ResolutionError`. -/
theorem build_known_language_resolves (wb : Wandbox) (b : CompilationBuilder)
    (g : Language) (hg : cacheGet wb.cache b.target = some g) :
    (∀ c, g.compilers.get? 0 = some c →
        (b.build wb).is_resolved = true ∧
        (b.build wb).state.map CompilationBuilder.lang = some b.target ∧
        (b.build wb).state.map CompilationBuilder.compiler = some c.name) ∧
    (g.compilers = [] → b.build wb = BuildResult.panicked) :=
  build_language_branch wb b g hg

/-- Counterexample to C2 as stated: in a catalog whose `c++` group exists
but holds zero compilers (its only compiler was excluded), a builder
targeting `c++` hits the language branch and `build` panics — it does not
fail with a `ResolutionError`, so the claimed error outcome never happens. -/
theorem build_no_default_panics_cex :
    (Wandbox.new [gccHead] (some ["gcc-head"]) none).is_valid_language "c++" = true ∧
    ({ CompilationBuilder.new with target := "c++" } : CompilationBuilder).build
        (Wandbox.new [gccHead] (some ["gcc-head"]) none) = BuildResult.panicked ∧
    (({ CompilationBuilder.new with target := "c++" } : CompilationBuilder).build
        (Wandbox.new [gccHead] (some ["gcc-head"]) none)).is_err = false := by
  decide

/-- Instantiation of C2's amended theorem: building against a fresh
one-entry catalog resolves lang to the target and compiler to the default. -/
theorem build_known_language_resolves_witness :
    ((({ CompilationBuilder.new with target := "c++" } : CompilationBuilder).build
        (Wandbox.new [gccHead] none none)).is_resolved = true) ∧
    ((({ CompilationBuilder.new with target := "c++" } : CompilationBuilder).build
        (Wandbox.new [gccHead] none none)).state.map CompilationBuilder.lang = some "c++") ∧
    ((({ CompilationBuilder.new with target := "c++" } : CompilationBuilder).build
        (Wandbox.new [gccHead] none none)).state.map CompilationBuilder.compiler = some "gcc-head") :=
  (build_known_language_resolves (Wandbox.new [gccHead] none none)
      { CompilationBuilder.new with target := "c++" }
      { name := "c++", compilers := [{ gccHead with language := "c++" }] }
      (by decide)).1
    { gccHead with language := "c++" } rfl

/-- A compiler whose name coincides with its own language's lowercased name:
`"c++"` is then simultaneously a known language name and a known compiler
identifier. -/
def selfNamed : Compiler :=
  { compiler_option_raw := false, display_compile_command := "c++ prog.cc",
    runtime_option_raw := false, version := "1", language := "c++",
    name := "c++" }

/-- A listing whose entry `x` (a compiler in language `y`) shares its name
with the language `x`, whose own group is emptied by exclusion. -/
def compX : Compiler :=
  { compiler_option_raw := false, display_compile_command := "x prog",
    runtime_option_raw := false, version := "1", language := "y",
    name := "x" }

def compA : Compiler :=
  { compiler_option_raw := false, display_compile_command := "a prog",
    runtime_option_raw := false, version := "1", language := "x",
    name := "a" }

/-- Counterexample to C3 as stated: `"x"` is both a known language name
(whose group was emptied by compiler exclusion) and a known compiler
identifier (a compiler named `x` lives in language `y`), yet `build` does
not resolve lang = target / compiler = default — it panics in the language
branch. -/
theorem build_tiebreak_cex :
    (Wandbox.new [compX, compA] (some ["a"]) none).is_valid_language "x" = true ∧
    (Wandbox.new [compX, compA] (some ["a"]) none).is_valid_compiler_str "x" = true ∧
    ({ CompilationBuilder.new with target := "x" } : CompilationBuilder).build
        (Wandbox.new [compX, compA] (some ["a"]) none) = BuildResult.panicked ∧
    (({ CompilationBuilder.new with target := "x" } : CompilationBuilder).build
        (Wandbox.new [compX, compA] (some ["a"]) none)).is_resolved = false := by
  decide

/-- C3 (amended): a target that is simultaneously a known language name and
a known compiler identifier is resolved through the language branch — the
compiler interpretation is never consulted: with a non-empty group, `build`
resolves lang = target and compiler = the language's default compiler; with
an empty group it panics instead of falling back to the compiler
interpretation. -/
theorem build_tiebreak_prefers_language (wb : Wandbox) (b : CompilationBuilder)
    (g : Language)
    (hl : wb.is_valid_language b.target = true)
    (hc : wb.is_valid_compiler_str b.target = true)
    (hg : cacheGet wb.cache b.target = some g) :
    (∀ c, g.compilers.get? 0 = some c →
        (b.build wb).is_resolved = true ∧
        (b.build wb).state.map CompilationBuilder.lang = some b.target ∧
        (b.build wb).state.map CompilationBuilder.compiler = some c.name) ∧
    (g.compilers = [] → b.build wb = BuildResult.panicked) :=
  build_language_branch wb b g hg

/-- Instantiation of C3's amended theorem: `c++` names both a language and a
compiler; resolution picks the language interpretation. -/
theorem build_tiebreak_prefers_language_witness :
    ((({ CompilationBuilder.new with target := "c++" } : CompilationBuilder).build
        (Wandbox.new [selfNamed] none none)).is_resolved = true) ∧
    ((({ CompilationBuilder.new with target := "c++" } : CompilationBuilder).build
        (Wandbox.new [selfNamed] none none)).state.map CompilationBuilder.lang = some "c++") ∧
    ((({ CompilationBuilder.new with target := "c++" } : CompilationBuilder).build
        (Wandbox.new [selfNamed] none none)).state.map CompilationBuilder.compiler = some "c++") :=
  (build_tiebreak_prefers_language (Wandbox.new [selfNamed] none none)
      { CompilationBuilder.new with target := "c++" }
      { name := "c++", compilers := [selfNamed] }
      (by decide) (by decide) (by decide)).1 selfNamed rfl

/-- C4: when the target matches neither a known language nor a known
compiler, `build` fails with the "target not found" `ResolutionError`, and
the builder's resolved fields `lang` and `compiler` hold the same values
after the failed call as before it. -/
theorem build_unknown_target_error (wb : Wandbox) (b : CompilationBuilder)
    (h1 : wb.is_valid_language b.target = false)
    (h2 : wb.is_valid_compiler_str b.target = false) :
    (b.build wb).is_err = true ∧
    (b.build wb).err_msg = some "Unable to find compiler or language for target" ∧
    (b.build wb).state.map CompilationBuilder.lang = some b.lang ∧
    (b.build wb).state.map CompilationBuilder.compiler = some b.compiler := by
  simp [CompilationBuilder.build, h1, h2, BuildResult.is_err, BuildResult.err_msg,
    BuildResult.state]

/-- Instantiation of C4's theorem: an empty catalog knows neither languages
nor compilers, so the default builder's empty target fails and leaves the
resolved fields untouched. -/
theorem build_unknown_target_error_witness :
    ((CompilationBuilder.new.build (Wandbox.new [] none none)).is_err = true) ∧
    ((CompilationBuilder.new.build (Wandbox.new [] none none)).err_msg
      = some "Unable to find compiler or language for target") ∧
    ((CompilationBuilder.new.build (Wandbox.new [] none none)).state.map
      CompilationBuilder.lang = some "") ∧
    ((CompilationBuilder.new.build (Wandbox.new [] none none)).state.map
      CompilationBuilder.compiler = some "") :=
  build_unknown_target_error (Wandbox.new [] none none) CompilationBuilder.new
    (by decide) (by decide)

end wandbox
